import Mathlib

/-!
Verification development for the human-in-the-loop agent panel
(`src/agent_panel.py`).

The Python module keeps the whole agent run in Streamlit session state under
the keys of `DEFAULT_STATE` (`agent_phase`, `agent_events`, `agent_messages`,
`agent_chart_specs`, `agent_pending_message`, `agent_rewrite_event_index`).
We embed that session state as the structure `State` below, each mutating
function of the module as a pure function `State → State` (or `Option State`
when the Python code can raise), and the dispatch at the bottom of
`agent_panel` (lines 359-399) as a `step` function over an `Input` alphabet:
one input per model response or human decision consumed in a tick.

The tool implementations (`movie_tool.query_movie_db` and
`chart_tool.validate_chart`) live outside `src/`; following the spec they are
opaque executors, so we parametrise the development by a `ToolEnv` carrying
them.  The dataframe argument of `query_movie_db` is fixed for a run
(`agent_df`) and is absorbed into the executor parameter; the `agent_tools`
schema list and `agent_df` themselves are only forwarded to the model client
and never inspected by the state machine, so they are omitted from `State`.
-/

namespace AgentPanel

/-- Parsed JSON argument payload of one tool call (`json.loads(tc.function.arguments)`).
`agent_panel.py` reads `args["code"]` for QueryMovieDB and
`args["vega_lite_spec"]` for CreateChart, so we model the payload as a record
carrying both keys. -/
structure Args where
  code : String
  vega_lite_spec : String
deriving Repr, DecidableEq

/-- One requested tool invocation of a proposal (`tc` with `tc.id`,
`tc.function.name`, `tc.function.arguments`). -/
structure ToolCall where
  id : String
  name : String
  args : Args
deriving Repr, DecidableEq

/-- One transcript turn of `agent_messages`.  The assistant message object
carrying the model's tool calls (`pending_msg`) is appended verbatim by
`execute_pending_tools` / `reject_pending_tools` / `edit_pending_tools`; we
model it as the `toolCalls` turn holding its call list. -/
inductive Turn
  | system (content : String)
  | user (content : String)
  | assistant (content : String)
  | toolCalls (calls : List ToolCall)
  | toolResult (content : String) (tool_call_id : String)
deriving Repr, DecidableEq

/-- The `agent_phase` values. -/
inductive Phase
  | idle
  | thinking
  | acting
  | awaiting_approval
  | awaiting_edit
  | awaiting_feedback
  | done
deriving Repr, DecidableEq

/-- One entry of `agent_events`, mirroring the dict variants appended by
`run_step`, `execute_pending_tools`, `reject_pending_tools`,
`edit_pending_tools` and `rewind_and_edit`.  The `answer` field of the answer
event is the model's `reasoning.answer`, an `Optional[str]` in the source. -/
inductive Event
  | thought (thought : String)
  | answer (thought : String) (answer : Option String)
  | action (name : String) (code : String) (result : String) (rewind_point : Nat)
  | chart (name : String) (spec_str : String) (result : String) (rewind_point : Nat)
  | rejected (name : String) (feedback : String)
  | edited (prompt : String)
deriving Repr, DecidableEq

/-- The `_rewind_point` key: present exactly on action and chart events. -/
def Event.rewindPoint? : Event → Option Nat
  | Event.action _ _ _ rp => some rp
  | Event.chart _ _ _ rp => some rp
  | _ => none

/-- The structured decision parsed in the thinking branch of `run_step`
(the `Reasoning` pydantic model: `reason`, `use_tool`, optional `answer`). -/
structure Reasoning where
  reason : String
  use_tool : Bool
  answer : Option String
deriving Repr, DecidableEq

/-- The agent run's session state (the `agent_*` keys of `DEFAULT_STATE`). -/
structure State where
  agent_phase : Phase
  agent_events : List Event
  agent_messages : List Turn
  agent_chart_specs : List String
  agent_pending_message : Option (List ToolCall)
  agent_rewrite_event_index : Option Nat
deriving Repr, DecidableEq

/-- The two external tool executors.  Modelled from the spec: the tool
implementations (`movie_tool.py`, `chart_tool.py`) are not under `src/`; per
the spec they are opaque `execute(name, args) -> text` collaborators.
`query_movie_db code` returns the observation text (the dataframe argument is
fixed per run and absorbed here); `validate_chart spec_str` returns the
validated spec (`none` when validation failed) together with the result
text, matching `spec, result = validate_chart(...)`.  A validated chart spec
is modelled as an opaque `String` value. -/
structure ToolEnv where
  query_movie_db : String → String
  validate_chart : String → Option String × String

/-- Initial session state: the values of `DEFAULT_STATE`. -/
def init : State where
  agent_phase := Phase.idle
  agent_events := []
  agent_messages := []
  agent_chart_specs := []
  agent_pending_message := none
  agent_rewrite_event_index := none

/-- The system message content built by `restart_agent` (the chart sentence is
appended when `show_chart` is set). -/
def system_content (show_chart : Bool) : String :=
  if show_chart then
    "You are a data analyst with access to a tool that executes Python code on a movie database. After computing the data, create a chart using a Vega-Lite specification."
  else
    "You are a data analyst with access to a tool that executes Python code on a movie database."

/-- `restart_agent` (lines 28-46): reset the run for a new question.  Note
that `agent_rewrite_event_index` is not reset by the source and is left
unchanged here too.  The `agent_tools` / `agent_df` assignments only feed the
model client and the executors and are absorbed into `ToolEnv`. -/
def restart_agent (user_question : String) (show_chart : Bool) (s : State) : State :=
  { s with
    agent_phase := Phase.thinking
    agent_events := []
    agent_chart_specs := []
    agent_pending_message := none
    agent_messages :=
      [Turn.system (system_content show_chart), Turn.user user_question] }

/-- Thinking branch of `run_step` (lines 55-72), applied to the parsed model
decision `r`: append the reason as an assistant turn; on `use_tool` emit a
thought event and move to acting, otherwise emit an answer event (carrying
`r.answer` as-is) and move to done. -/
def run_step_thinking (r : Reasoning) (s : State) : State :=
  let messages := s.agent_messages ++ [Turn.assistant r.reason]
  if r.use_tool then
    { s with
      agent_messages := messages
      agent_events := s.agent_events ++ [Event.thought r.reason]
      agent_phase := Phase.acting }
  else
    { s with
      agent_messages := messages
      agent_events := s.agent_events ++ [Event.answer r.reason r.answer]
      agent_phase := Phase.done }

/-- Acting branch of `run_step` (lines 74-87), applied to the tool calls of
the model response: with no calls the run ends (`if not msg.tool_calls`),
otherwise the message becomes the single pending proposal and the phase moves
to awaiting_approval.  Nothing is appended to the transcript here. -/
def run_step_acting (calls : List ToolCall) (s : State) : State :=
  if calls.isEmpty then
    { s with agent_phase := Phase.done }
  else
    { s with
      agent_pending_message := some calls
      agent_phase := Phase.awaiting_approval }

/-- The transcript turns, events and chart specs appended by the call loop of
`execute_pending_tools` (lines 96-116). -/
structure Delta where
  turns : List Turn
  events : List Event
  specs : List String
deriving Repr, DecidableEq

/-- The `for tc in pending_msg.tool_calls` loop of `execute_pending_tools`.
`rp` is the `rewind_point` recorded before the loop; `lastResult` is the value
of the Python local variable `result` before this iteration (`none` when it is
still unbound).  The source has branches only for QueryMovieDB and
CreateChart: for any other tool name nothing is dispatched and line 116
appends the stale `result` of the previous iteration; on the first iteration
`result` is unbound there, raising NameError, which we model as `none`. -/
def run_calls (env : ToolEnv) (rp : Nat) (lastResult : Option String) :
    List ToolCall → Option Delta
  | [] => some { turns := [], events := [], specs := [] }
  | tc :: rest =>
    if tc.name = "QueryMovieDB" then
      let result := env.query_movie_db tc.args.code
      (run_calls env rp (some result) rest).map fun d =>
        { turns := Turn.toolResult result tc.id :: d.turns
          events := Event.action tc.name tc.args.code result rp :: d.events
          specs := d.specs }
    else if tc.name = "CreateChart" then
      let vr := env.validate_chart tc.args.vega_lite_spec
      (run_calls env rp (some vr.2) rest).map fun d =>
        { turns := Turn.toolResult vr.2 tc.id :: d.turns
          events := Event.chart tc.name tc.args.vega_lite_spec vr.2 rp :: d.events
          specs := vr.1.toList ++ d.specs }
    else
      match lastResult with
      | none => none
      | some r =>
        (run_calls env rp (some r) rest).map fun d =>
          { turns := Turn.toolResult r tc.id :: d.turns
            events := d.events
            specs := d.specs }

/-- `execute_pending_tools` (lines 89-119): record the current transcript
length as `rewind_point`, append the pending assistant message, run the call
loop, clear the pending proposal and return to thinking.  `none` models the
Python exceptions: AttributeError when no message is pending (the UI only
offers Approve while one is), and the NameError of the call loop. -/
def execute_pending_tools (env : ToolEnv) (s : State) : Option State :=
  match s.agent_pending_message with
  | none => none
  | some calls =>
    let rewind_point := s.agent_messages.length
    (run_calls env rewind_point none calls).map fun d =>
      { s with
        agent_messages := s.agent_messages ++ Turn.toolCalls calls :: d.turns
        agent_events := s.agent_events ++ d.events
        agent_chart_specs := s.agent_chart_specs ++ d.specs
        agent_pending_message := none
        agent_phase := Phase.thinking }

/-- The rejection text of `reject_pending_tools` (lines 125-129); the source
builds it by string concatenation, with the feedback branch chosen by Python
truthiness of `feedback`. -/
def rejection_msg (feedback : String) : String :=
  if feedback ≠ "" then
    "User rejected this action. User feedback: " ++ feedback
  else
    "User rejected this action. Try a different approach."

/-- `reject_pending_tools` (lines 121-140): append the proposal, then per call
one rejected event and one tool-result turn carrying the rejection text; clear
the pending proposal and return to thinking. -/
def reject_pending_tools (feedback : String) (s : State) : Option State :=
  match s.agent_pending_message with
  | none => none
  | some calls =>
    some { s with
      agent_messages := s.agent_messages ++ Turn.toolCalls calls ::
        calls.map (fun tc => Turn.toolResult (rejection_msg feedback) tc.id)
      agent_events := s.agent_events ++
        calls.map (fun tc => Event.rejected tc.name feedback)
      agent_pending_message := none
      agent_phase := Phase.thinking }

/-- The synthetic edit message of `edit_pending_tools` (line 268). -/
def edit_msg (p : String) : String :=
  "User wants changes to the proposed code: " ++ p ++
    ". Regenerate the tool call with these changes."

/-- `edit_pending_tools` (lines 264-276): append the proposal, one tool-result
turn per call carrying the edit message, an edited event; clear the pending
proposal and move to acting so the model re-proposes. -/
def edit_pending_tools (p : String) (s : State) : Option State :=
  match s.agent_pending_message with
  | none => none
  | some calls =>
    some { s with
      agent_messages := s.agent_messages ++ Turn.toolCalls calls ::
        calls.map (fun tc => Turn.toolResult (edit_msg p) tc.id)
      agent_events := s.agent_events ++ [Event.edited p]
      agent_pending_message := none
      agent_phase := Phase.acting }

/-- The chart spec an event contributes to `agent_chart_specs`:
`validate_chart(e["spec_str"])[0]` for chart events, nothing otherwise.  The
list comprehension of `rewind_and_edit` (lines 286-290) ranges over chart
events and then keeps the truthy specs; over all events that is exactly
`filterMap (chart_of env)`. -/
def chart_of (env : ToolEnv) : Event → Option String
  | Event.chart _ spec_str _ _ => (env.validate_chart spec_str).1
  | _ => none

/-- The user turn appended by `rewind_and_edit` (line 293). -/
def rewind_user_msg (p : String) : String :=
  "User wants changes: " ++ p ++ ". Regenerate the tool call."

/-- `rewind_and_edit` (lines 278-295): truncate the transcript to the chosen
event's `_rewind_point` (`del messages[rewind_point:]`), drop that event and
everything after it (`del events[event_index:]`), recompute the chart list
from the surviving chart events, append an edited event and a user turn,
clear the rewind target and move to acting.  `none` models the IndexError /
KeyError the source would raise on an index that is not a rendered
action/chart event; the UI only offers those. -/
def rewind_and_edit (env : ToolEnv) (event_index : Nat) (p : String) (s : State) :
    Option State :=
  match s.agent_events[event_index]? with
  | none => none
  | some e =>
    match e.rewindPoint? with
    | none => none
    | some rp =>
      let events := s.agent_events.take event_index
      some { s with
        agent_messages := s.agent_messages.take rp ++ [Turn.user (rewind_user_msg p)]
        agent_events := events ++ [Event.edited p]
        agent_chart_specs := events.filterMap (chart_of env)
        agent_rewrite_event_index := none
        agent_phase := Phase.acting }

/-- One unit of work consumed per tick of the `agent_panel` driver: either a
model response (`think` in the thinking phase, `propose` in the acting phase)
or one human decision read from the rendered widgets.  `selectRewind i` is the
Edit button rendered next to the action/chart event at index `i` in the done
phase. -/
inductive Input
  | newQuestion (q : String) (show_chart : Bool)
  | think (r : Reasoning)
  | propose (calls : List ToolCall)
  | approve
  | chooseEdit
  | chooseReject
  | editCancel
  | editSubmit (p : String)
  | feedbackSubmit (feedback : String)
  | selectRewind (i : Nat)
deriving Repr, DecidableEq

/-- The phase dispatch of `agent_panel` (lines 359-399), one consumed input
per tick.  Inputs that the current phase does not read leave the state
unchanged (the source simply does not reach their branch).  `none` marks the
transitions where the source raises (see `execute_pending_tools`,
`rewind_and_edit`).  In the source, `analyze_button and user_question` guards
`restart_agent` (an empty question is falsy), `edit_submitted and edit_prompt`
guards the edit branch (an empty prompt is falsy), and the rewind buttons are
only rendered on action/chart events, which the `selectRewind` guard mirrors. -/
def step (env : ToolEnv) (i : Input) (s : State) : Option State :=
  match i with
  | Input.newQuestion q show_chart =>
    if q = "" then some s else some (restart_agent q show_chart s)
  | Input.think r =>
    if s.agent_phase = Phase.thinking then some (run_step_thinking r s) else some s
  | Input.propose calls =>
    if s.agent_phase = Phase.acting then some (run_step_acting calls s) else some s
  | Input.approve =>
    if s.agent_phase = Phase.awaiting_approval then execute_pending_tools env s
    else some s
  | Input.chooseEdit =>
    if s.agent_phase = Phase.awaiting_approval then
      some { s with agent_phase := Phase.awaiting_edit }
    else some s
  | Input.chooseReject =>
    if s.agent_phase = Phase.awaiting_approval then
      some { s with agent_phase := Phase.awaiting_feedback }
    else some s
  | Input.editCancel =>
    if s.agent_phase = Phase.awaiting_edit then
      if s.agent_pending_message.isSome then
        some { s with agent_phase := Phase.awaiting_approval }
      else
        some { s with
          agent_rewrite_event_index := none
          agent_phase := Phase.done }
    else some s
  | Input.editSubmit p =>
    if s.agent_phase = Phase.awaiting_edit ∧ p ≠ "" then
      if s.agent_pending_message.isSome then edit_pending_tools p s
      else
        match s.agent_rewrite_event_index with
        | some idx => rewind_and_edit env idx p s
        | none => some s
    else some s
  | Input.feedbackSubmit f =>
    if s.agent_phase = Phase.awaiting_feedback then reject_pending_tools f s
    else some s
  | Input.selectRewind i =>
    if s.agent_phase = Phase.done ∧ (s.agent_events[i]?.bind Event.rewindPoint?).isSome then
      some { s with
        agent_rewrite_event_index := some i
        agent_phase := Phase.awaiting_edit }
    else some s

/-- States reachable from the initial session state by ticks of the driver. -/
inductive Reachable (env : ToolEnv) : State → Prop
  | init : Reachable env init
  | step : ∀ {s s' : State} (i : Input),
      Reachable env s → step env i s = some s' → Reachable env s'

/-- Run a list of inputs through `step`. -/
def run (env : ToolEnv) (s : State) : List Input → Option State
  | [] => some s
  | i :: rest =>
    match step env i s with
    | none => none
    | some s' => run env s' rest

/-- The pending proposals of a state as a list (the single slot
`agent_pending_message`, or nothing). -/
def pending_proposals (s : State) : List (List ToolCall) :=
  s.agent_pending_message.toList

/-- Observation text produced for a call whose tool name is registered
(characterises the dispatch of the call loop on the two known names). -/
def known_result (env : ToolEnv) (tc : ToolCall) : String :=
  if tc.name = "QueryMovieDB" then env.query_movie_db tc.args.code
  else (env.validate_chart tc.args.vega_lite_spec).2

/-- Event appended for a call whose tool name is registered. -/
def known_event (env : ToolEnv) (rp : Nat) (tc : ToolCall) : Event :=
  if tc.name = "QueryMovieDB" then
    Event.action tc.name tc.args.code (known_result env tc) rp
  else
    Event.chart tc.name tc.args.vega_lite_spec (known_result env tc) rp

/-- Chart spec contributed by a call: the validated spec of a CreateChart
call when validation succeeded, nothing otherwise. -/
def call_chart_spec (env : ToolEnv) (tc : ToolCall) : Option String :=
  if tc.name = "CreateChart" then (env.validate_chart tc.args.vega_lite_spec).1
  else none

theorem string_qmdb_ne_cc : ("QueryMovieDB" : String) ≠ "CreateChart" := by decide

theorem run_calls_known (env : ToolEnv) (rp : Nat) :
    ∀ (calls : List ToolCall) (lastResult : Option String),
      (∀ tc ∈ calls, tc.name = "QueryMovieDB" ∨ tc.name = "CreateChart") →
      run_calls env rp lastResult calls = some
        { turns := calls.map fun tc => Turn.toolResult (known_result env tc) tc.id
          events := calls.map (known_event env rp)
          specs := calls.filterMap (call_chart_spec env) } := by
  intro calls
  induction calls with
  | nil => intro _ _; rfl
  | cons tc rest ih =>
    intro lastResult h
    have hrest : ∀ x ∈ rest, x.name = "QueryMovieDB" ∨ x.name = "CreateChart" :=
      fun x hx => h x (List.mem_cons_of_mem _ hx)
    rcases h tc (List.mem_cons_self tc rest) with hq | hc
    · simp [run_calls, hq, ih _ hrest, known_result, known_event, call_chart_spec,
        string_qmdb_ne_cc]
    · simp [run_calls, hc, ih _ hrest, known_result, known_event, call_chart_spec,
        string_qmdb_ne_cc.symm, List.filterMap_cons]
      cases hv : (env.validate_chart tc.args.vega_lite_spec).1 <;> simp [hv]

theorem run_calls_specs (env : ToolEnv) (rp : Nat) :
    ∀ (calls : List ToolCall) (lastResult : Option String) (d : Delta),
      run_calls env rp lastResult calls = some d →
      d.specs = d.events.filterMap (chart_of env) := by
  intro calls
  induction calls with
  | nil =>
    intro _ d h
    obtain rfl := Option.some.inj h
    rfl
  | cons tc rest ih =>
    intro lastResult d h
    by_cases hq : tc.name = "QueryMovieDB"
    · rw [show run_calls env rp lastResult (tc :: rest) =
          (run_calls env rp (some (env.query_movie_db tc.args.code)) rest).map
            (fun d => { turns := Turn.toolResult (env.query_movie_db tc.args.code) tc.id :: d.turns
                        events := Event.action tc.name tc.args.code (env.query_movie_db tc.args.code) rp :: d.events
                        specs := d.specs })
          from by simp [run_calls, hq]] at h
      rw [Option.map_eq_some'] at h
      obtain ⟨d0, hd0, rfl⟩ := h
      simpa [chart_of] using ih _ _ hd0
    · by_cases hc : tc.name = "CreateChart"
      · rw [show run_calls env rp lastResult (tc :: rest) =
            (run_calls env rp (some (env.validate_chart tc.args.vega_lite_spec).2) rest).map
              (fun d => { turns := Turn.toolResult (env.validate_chart tc.args.vega_lite_spec).2 tc.id :: d.turns
                          events := Event.chart tc.name tc.args.vega_lite_spec (env.validate_chart tc.args.vega_lite_spec).2 rp :: d.events
                          specs := (env.validate_chart tc.args.vega_lite_spec).1.toList ++ d.specs })
            from by simp [run_calls, hq, hc]] at h
        rw [Option.map_eq_some'] at h
        obtain ⟨d0, hd0, rfl⟩ := h
        have := ih _ _ hd0
        cases hv : (env.validate_chart tc.args.vega_lite_spec).1 <;>
          simp [chart_of, hv, this]
      · cases lastResult with
        | none => simp [run_calls, hq, hc] at h
        | some r =>
          rw [show run_calls env rp (some r) (tc :: rest) =
              (run_calls env rp (some r) rest).map
                (fun d => { turns := Turn.toolResult r tc.id :: d.turns
                            events := d.events
                            specs := d.specs })
              from by simp [run_calls, hq, hc]] at h
          rw [Option.map_eq_some'] at h
          obtain ⟨d0, hd0, rfl⟩ := h
          simpa using ih _ _ hd0

theorem run_calls_rp (env : ToolEnv) (rp : Nat) :
    ∀ (calls : List ToolCall) (lastResult : Option String) (d : Delta),
      run_calls env rp lastResult calls = some d →
      ∀ ev ∈ d.events, ev.rewindPoint? = some rp := by
  intro calls
  induction calls with
  | nil =>
    intro _ d h
    obtain rfl := Option.some.inj h
    intro ev hev
    cases hev
  | cons tc rest ih =>
    intro lastResult d h
    by_cases hq : tc.name = "QueryMovieDB"
    · rw [show run_calls env rp lastResult (tc :: rest) =
          (run_calls env rp (some (env.query_movie_db tc.args.code)) rest).map
            (fun d => { turns := Turn.toolResult (env.query_movie_db tc.args.code) tc.id :: d.turns
                        events := Event.action tc.name tc.args.code (env.query_movie_db tc.args.code) rp :: d.events
                        specs := d.specs })
          from by simp [run_calls, hq]] at h
      rw [Option.map_eq_some'] at h
      obtain ⟨d0, hd0, rfl⟩ := h
      intro ev hev
      rcases List.mem_cons.mp hev with rfl | hmem
      · rfl
      · exact ih _ _ hd0 ev hmem
    · by_cases hc : tc.name = "CreateChart"
      · rw [show run_calls env rp lastResult (tc :: rest) =
            (run_calls env rp (some (env.validate_chart tc.args.vega_lite_spec).2) rest).map
              (fun d => { turns := Turn.toolResult (env.validate_chart tc.args.vega_lite_spec).2 tc.id :: d.turns
                          events := Event.chart tc.name tc.args.vega_lite_spec (env.validate_chart tc.args.vega_lite_spec).2 rp :: d.events
                          specs := (env.validate_chart tc.args.vega_lite_spec).1.toList ++ d.specs })
            from by simp [run_calls, hq, hc]] at h
        rw [Option.map_eq_some'] at h
        obtain ⟨d0, hd0, rfl⟩ := h
        intro ev hev
        rcases List.mem_cons.mp hev with rfl | hmem
        · rfl
        · exact ih _ _ hd0 ev hmem
      · cases lastResult with
        | none => simp [run_calls, hq, hc] at h
        | some r =>
          rw [show run_calls env rp (some r) (tc :: rest) =
              (run_calls env rp (some r) rest).map
                (fun d => { turns := Turn.toolResult r tc.id :: d.turns
                            events := d.events
                            specs := d.specs })
              from by simp [run_calls, hq, hc]] at h
          rw [Option.map_eq_some'] at h
          obtain ⟨d0, hd0, rfl⟩ := h
          intro ev hev
          exact ih _ _ hd0 ev hev

/-!  Concrete fixtures used by witnesses and counterexamples. -/

/-- Concrete executor instance: every query returns "ok"; every chart spec
validates successfully to itself with result text "valid". -/
def env0 : ToolEnv where
  query_movie_db := fun _ => "ok"
  validate_chart := fun sp => (some sp, "valid")

/-- Executor instance whose chart validation always fails. -/
def envFail : ToolEnv where
  query_movie_db := fun _ => "ok"
  validate_chart := fun _ => (none, "invalid chart spec")

def tcQuery : ToolCall :=
  { id := "call_1", name := "QueryMovieDB", args := { code := "x", vega_lite_spec := "" } }

def tcQuery2 : ToolCall :=
  { id := "call_2", name := "QueryMovieDB", args := { code := "y", vega_lite_spec := "" } }

def tcChart : ToolCall :=
  { id := "call_3", name := "CreateChart", args := { code := "", vega_lite_spec := "spec1" } }

def tcUnknown : ToolCall :=
  { id := "call_9", name := "Summarize", args := { code := "", vega_lite_spec := "" } }

def base_msgs : List Turn := [Turn.system "sys", Turn.user "q"]

def sThinking : State :=
  { init with agent_phase := Phase.thinking, agent_messages := base_msgs }

def sActing : State := { sThinking with agent_phase := Phase.acting }

def sApproval : State :=
  { sActing with
    agent_phase := Phase.awaiting_approval
    agent_pending_message := some [tcQuery, tcChart] }

def sEdit : State := { sApproval with agent_phase := Phase.awaiting_edit }

def sFeedback : State := { sApproval with agent_phase := Phase.awaiting_feedback }

/-!  Claim theorems. -/

/-- C2: approving a pending proposal records the current transcript length as
the rewind point, appends the assistant turn carrying the proposal, then for
each requested call executes the named tool, appends a tool-result turn tagged
with that call's identifier and the matching action/chart event (a CreateChart
call appends its validated spec to the chart list exactly when validation
succeeded, `call_chart_spec` being `some` exactly then), clears the pending
proposal and transitions the phase to thinking.  The hypothesis restricts the
batch to registered tool names, the scope of the claim (unregistered names are
the subject of C6). -/
theorem c2_approve_executes (env : ToolEnv) (s : State) (calls : List ToolCall)
    (hph : s.agent_phase = Phase.awaiting_approval)
    (hpend : s.agent_pending_message = some calls)
    (hknown : ∀ tc ∈ calls, tc.name = "QueryMovieDB" ∨ tc.name = "CreateChart") :
    step env Input.approve s = some
      { s with
        agent_messages := s.agent_messages ++ Turn.toolCalls calls ::
          calls.map fun tc => Turn.toolResult (known_result env tc) tc.id
        agent_events := s.agent_events ++
          calls.map (known_event env s.agent_messages.length)
        agent_chart_specs := s.agent_chart_specs ++
          calls.filterMap (call_chart_spec env)
        agent_pending_message := none
        agent_phase := Phase.thinking } := by
  simp [step, hph, execute_pending_tools, hpend,
    run_calls_known env s.agent_messages.length calls none hknown]

/-- Witness for C2 at a concrete state holding a two-call proposal (one query,
one chart). -/
theorem c2_approve_executes_witness :
    step env0 Input.approve sApproval = some
      { sApproval with
        agent_messages := sApproval.agent_messages ++ Turn.toolCalls [tcQuery, tcChart] ::
          [tcQuery, tcChart].map fun tc => Turn.toolResult (known_result env0 tc) tc.id
        agent_events := sApproval.agent_events ++
          [tcQuery, tcChart].map (known_event env0 sApproval.agent_messages.length)
        agent_chart_specs := sApproval.agent_chart_specs ++
          [tcQuery, tcChart].filterMap (call_chart_spec env0)
        agent_pending_message := none
        agent_phase := Phase.thinking } :=
  c2_approve_executes env0 sApproval [tcQuery, tcChart] rfl rfl (by decide)

/-- C5: with a pending proposal, submitting a rejection with feedback appends
the proposal as an assistant turn, one tool-result turn per requested call
carrying "User rejected this action." plus the feedback when it is non-empty
and "Try a different approach." otherwise, exactly one rejected event per call
carrying that feedback, clears the pending proposal and transitions the phase
to thinking. -/
theorem c5_reject_pending (env : ToolEnv) (s : State) (calls : List ToolCall) (f : String)
    (hph : s.agent_phase = Phase.awaiting_feedback)
    (hpend : s.agent_pending_message = some calls) :
    step env (Input.feedbackSubmit f) s = some
      { s with
        agent_messages := s.agent_messages ++ Turn.toolCalls calls ::
          calls.map fun tc => Turn.toolResult (rejection_msg f) tc.id
        agent_events := s.agent_events ++
          calls.map fun tc => Event.rejected tc.name f
        agent_pending_message := none
        agent_phase := Phase.thinking }
    ∧ (f ≠ "" → rejection_msg f = "User rejected this action. User feedback: " ++ f)
    ∧ (f = "" → rejection_msg f = "User rejected this action. Try a different approach.") := by
  refine ⟨?_, ?_, ?_⟩
  · simp [step, hph, reject_pending_tools, hpend]
  · intro hf; simp [rejection_msg, hf]
  · intro hf; simp [rejection_msg, hf]

/-- Witness for C5 at a concrete state, with feedback "too slow". -/
theorem c5_reject_pending_witness :
    step env0 (Input.feedbackSubmit "too slow") sFeedback = some
      { sFeedback with
        agent_messages := sFeedback.agent_messages ++ Turn.toolCalls [tcQuery, tcChart] ::
          [tcQuery, tcChart].map fun tc => Turn.toolResult (rejection_msg "too slow") tc.id
        agent_events := sFeedback.agent_events ++
          [tcQuery, tcChart].map fun tc => Event.rejected tc.name "too slow"
        agent_pending_message := none
        agent_phase := Phase.thinking }
    ∧ ("too slow" ≠ "" →
        rejection_msg "too slow" = "User rejected this action. User feedback: " ++ "too slow")
    ∧ ("too slow" = "" →
        rejection_msg "too slow" = "User rejected this action. Try a different approach.") :=
  c5_reject_pending env0 sFeedback [tcQuery, tcChart] "too slow" rfl rfl

/-- C7 counterexample: the claim additionally asserts that when `use_tool` is
false the answer is non-empty, but the thinking branch performs no such check:
with the parsed decision carrying `answer = none` the answer event is emitted
with an absent answer.  The universally quantified statement below is the
claim's non-emptiness reading; it is false at `reason = "r"`,
`use_tool = false`, `answer = none`. -/
theorem c7_counterexample :
    ¬ (∀ (r : Reasoning) (s : State), s.agent_phase = Phase.thinking → r.use_tool = false →
        ∃ a, a ≠ "" ∧
          (run_step_thinking r s).agent_events =
            s.agent_events ++ [Event.answer r.reason (some a)]) := by
  intro h
  obtain ⟨a, _, hev⟩ := h { reason := "r", use_tool := false, answer := none }
    { init with agent_phase := Phase.thinking } rfl rfl
  simp [run_step_thinking, init] at hev

/-- C7 (amended): in the thinking phase the model's reason is appended to the
transcript as an assistant turn; if `use_tool` is false an answer event
carrying the decision's answer as-is (possibly absent or empty — non-emptiness
is not enforced) is emitted and the phase becomes done; if `use_tool` is true
a thought event is emitted and the phase becomes acting. -/
theorem c7_thinking_step (env : ToolEnv) (r : Reasoning) (s : State)
    (hph : s.agent_phase = Phase.thinking) :
    step env (Input.think r) s = some (run_step_thinking r s)
    ∧ (run_step_thinking r s).agent_messages =
        s.agent_messages ++ [Turn.assistant r.reason]
    ∧ (r.use_tool = true →
        (run_step_thinking r s).agent_events = s.agent_events ++ [Event.thought r.reason]
        ∧ (run_step_thinking r s).agent_phase = Phase.acting)
    ∧ (r.use_tool = false →
        (run_step_thinking r s).agent_events =
          s.agent_events ++ [Event.answer r.reason r.answer]
        ∧ (run_step_thinking r s).agent_phase = Phase.done) := by
  refine ⟨by simp [step, hph], ?_, ?_, ?_⟩
  · cases hu : r.use_tool <;> simp [run_step_thinking, hu]
  · intro hu; simp [run_step_thinking, hu]
  · intro hu; simp [run_step_thinking, hu]

/-- Witness for the amended C7 at a concrete decision with an absent answer. -/
theorem c7_thinking_step_witness :
    step env0 (Input.think { reason := "r", use_tool := false, answer := none }) sThinking =
      some (run_step_thinking { reason := "r", use_tool := false, answer := none } sThinking)
    ∧ (run_step_thinking { reason := "r", use_tool := false, answer := none } sThinking).agent_messages =
        sThinking.agent_messages ++ [Turn.assistant "r"]
    ∧ (false = true →
        (run_step_thinking { reason := "r", use_tool := false, answer := none } sThinking).agent_events =
          sThinking.agent_events ++ [Event.thought "r"]
        ∧ (run_step_thinking { reason := "r", use_tool := false, answer := none } sThinking).agent_phase =
            Phase.acting)
    ∧ (false = false →
        (run_step_thinking { reason := "r", use_tool := false, answer := none } sThinking).agent_events =
          sThinking.agent_events ++ [Event.answer "r" none]
        ∧ (run_step_thinking { reason := "r", use_tool := false, answer := none } sThinking).agent_phase =
            Phase.done) :=
  c7_thinking_step env0 { reason := "r", use_tool := false, answer := none } sThinking rfl

/-- C10: in the awaiting_edit phase, submitting an edit with an empty prompt
leaves the entire run state unchanged (the dispatch requires a truthy
`edit_prompt`), so the phase stays awaiting_edit and transcript, event log,
pending proposal, chart list and rewind target are untouched. -/
theorem c10_empty_edit_prompt_noop (env : ToolEnv) (s : State)
    (hph : s.agent_phase = Phase.awaiting_edit) :
    step env (Input.editSubmit "") s = some s
    ∧ s.agent_phase = Phase.awaiting_edit := by
  exact ⟨by simp [step], hph⟩

/-- Witness for C10 at a concrete awaiting_edit state. -/
theorem c10_empty_edit_prompt_noop_witness :
    step env0 (Input.editSubmit "") sEdit = some sEdit
    ∧ sEdit.agent_phase = Phase.awaiting_edit :=
  c10_empty_edit_prompt_noop env0 sEdit rfl

/-- C3: a rewind-and-edit from done on a past action/chart event truncates the
transcript to that event's rewind point — leaving every turn before that index
untouched and keeping nothing at or after it — truncates the event log to drop
that event and everything after, recomputes the chart list from the surviving
chart events, appends a user turn carrying the edit prompt and an edited
event, and moves the phase to acting. -/
theorem c3_rewind_and_edit (env : ToolEnv) (s : State) (i rp : Nat) (e : Event) (p : String)
    (hph : s.agent_phase = Phase.done)
    (hpend : s.agent_pending_message = none)
    (he : s.agent_events[i]? = some e)
    (hrp : e.rewindPoint? = some rp)
    (hp : p ≠ "") :
    step env (Input.selectRewind i) s =
      some { s with agent_rewrite_event_index := some i, agent_phase := Phase.awaiting_edit }
    ∧ step env (Input.editSubmit p)
        { s with agent_rewrite_event_index := some i, agent_phase := Phase.awaiting_edit } =
      some { s with
        agent_messages := s.agent_messages.take rp ++ [Turn.user (rewind_user_msg p)]
        agent_events := s.agent_events.take i ++ [Event.edited p]
        agent_chart_specs := (s.agent_events.take i).filterMap (chart_of env)
        agent_rewrite_event_index := none
        agent_phase := Phase.acting }
    ∧ (∀ j, j < rp → (s.agent_messages.take rp)[j]? = s.agent_messages[j]?)
    ∧ (∀ j, rp ≤ j → (s.agent_messages.take rp)[j]? = none) := by
  refine ⟨?_, ?_, ?_, ?_⟩
  · simp [step, hph, he, hrp]
  · simp [step, hp, hpend, rewind_and_edit, he, hrp]
  · intro j hj; exact List.getElem?_take_of_lt hj
  · intro j hj
    exact List.getElem?_eq_none (le_trans (List.length_take_le rp s.agent_messages) hj)

/-- Concrete done-state with a thought, one executed action (rewind point 3)
and a final answer, matching the transcript it was produced from. -/
def sDone : State where
  agent_phase := Phase.done
  agent_events := [Event.thought "t", Event.action "QueryMovieDB" "x" "ok" 3,
    Event.answer "a" (some "ans")]
  agent_messages := [Turn.system "sys", Turn.user "q", Turn.assistant "t",
    Turn.toolCalls [tcQuery], Turn.toolResult "ok" "call_1", Turn.assistant "a"]
  agent_chart_specs := []
  agent_pending_message := none
  agent_rewrite_event_index := none

/-- Witness for C3: rewind `sDone` at its action event (index 1, rewind
point 3) with prompt "use median instead". -/
theorem c3_rewind_and_edit_witness :
    step env0 (Input.selectRewind 1) sDone =
      some { sDone with agent_rewrite_event_index := some 1, agent_phase := Phase.awaiting_edit }
    ∧ step env0 (Input.editSubmit "use median instead")
        { sDone with agent_rewrite_event_index := some 1, agent_phase := Phase.awaiting_edit } =
      some { sDone with
        agent_messages := sDone.agent_messages.take 3 ++
          [Turn.user (rewind_user_msg "use median instead")]
        agent_events := sDone.agent_events.take 1 ++ [Event.edited "use median instead"]
        agent_chart_specs := (sDone.agent_events.take 1).filterMap (chart_of env0)
        agent_rewrite_event_index := none
        agent_phase := Phase.acting }
    ∧ (∀ j, j < 3 → (sDone.agent_messages.take 3)[j]? = sDone.agent_messages[j]?)
    ∧ (∀ j, 3 ≤ j → (sDone.agent_messages.take 3)[j]? = none) :=
  c3_rewind_and_edit env0 sDone 1 3 (Event.action "QueryMovieDB" "x" "ok" 3)
    "use median instead" rfl rfl rfl rfl (by decide)

/-- Approval state whose single pending call names an unregistered tool. -/
def sUnknownApproval : State :=
  { sActing with
    agent_phase := Phase.awaiting_approval
    agent_pending_message := some [tcUnknown] }

/-- Approval state whose pending batch is a registered call followed by an
unregistered one. -/
def sStaleApproval : State :=
  { sActing with
    agent_phase := Phase.awaiting_approval
    agent_pending_message := some [tcQuery, tcUnknown] }

/-- C6 (code bug): the call loop of `execute_pending_tools` has branches only
for QueryMovieDB and CreateChart; a call naming any other tool is never
converted into a textual error observation.  When the unknown call comes
first, line 116 reads the unbound local `result`, a NameError — a hard
failure of the execute step, modelled as `none` (first conjunct).  When a
registered call precedes it, the unknown call silently receives the previous
call's result text as its observation and no event at all (second and third
conjuncts: the tool-result turn for `call_9` carries "ok", the result of
`call_1`, and the event log gains only the action event of `call_1`). -/
theorem c6_unknown_tool_is_hard_failure :
    step env0 Input.approve sUnknownApproval = none
    ∧ (step env0 Input.approve sStaleApproval).map State.agent_messages =
        some (base_msgs ++ [Turn.toolCalls [tcQuery, tcUnknown],
          Turn.toolResult "ok" "call_1", Turn.toolResult "ok" "call_9"])
    ∧ (step env0 Input.approve sStaleApproval).map State.agent_events =
        some [Event.action "QueryMovieDB" "x" "ok" 2] := by
  refine ⟨by decide, by decide, by decide⟩

/-- The textual content of a turn; the assistant message object carrying tool
calls has no text content in this model. -/
def Turn.text? : Turn → Option String
  | Turn.system c => some c
  | Turn.user c => some c
  | Turn.assistant c => some c
  | Turn.toolResult c _ => some c
  | Turn.toolCalls _ => none

/-- The originating call identifier of a tool-result turn. -/
def Turn.toolResultId? : Turn → Option String
  | Turn.toolResult _ id => some id
  | _ => none

def c9_prompt : String := "filter to 2020+"

/-- Edit a pending single-call proposal, let the model re-propose, approve. -/
def c9_inputs : List Input :=
  [Input.newQuestion "avg" false,
   Input.think { reason := "t", use_tool := true, answer := none },
   Input.propose [tcQuery],
   Input.chooseEdit,
   Input.editSubmit c9_prompt,
   Input.propose [tcQuery2],
   Input.approve]

/-- C9 counterexample: after editing a pending proposal and approving the
re-proposal, the new proposal's first tool-result turn is at index 6 (the only
earlier tool-result turn belongs to the edited call `call_1`), but the turn
immediately preceding it, index 5, is the assistant message carrying the new
proposal, which holds no text at all — so the edit instruction does not appear
in the turn immediately preceding the new proposal's first tool-result turn
(it sits two positions earlier, at index 4). -/
theorem c9_counterexample :
    ((run env0 init c9_inputs).bind fun s => s.agent_messages[6]?) =
      some (Turn.toolResult "ok" "call_2")
    ∧ ((run env0 init c9_inputs).map fun s =>
        (s.agent_messages.take 6).filterMap Turn.toolResultId?) = some ["call_1"]
    ∧ ((run env0 init c9_inputs).bind fun s =>
        (s.agent_messages[5]?).bind Turn.text?) = none := by
  refine ⟨by decide, by decide, by decide⟩

/-- C9 (amended): after editing a pending proposal and approving the model's
re-proposal, the edit instruction appears in the transcript turn immediately
preceding the new proposal's assistant turn; the new proposal's first
tool-result turn follows that assistant turn, i.e. sits two positions after
the turn carrying the edit instruction. -/
theorem c9_edit_instruction_in_context (env : ToolEnv) (s s1 s2 s3 : State)
    (oldCalls newCalls : List ToolCall) (p : String) (tc0 : ToolCall)
    (hph : s.agent_phase = Phase.awaiting_edit)
    (hpend : s.agent_pending_message = some oldCalls)
    (hold : oldCalls ≠ [])
    (hp : p ≠ "")
    (hnew : newCalls.head? = some tc0)
    (hknown : ∀ tc ∈ newCalls, tc.name = "QueryMovieDB" ∨ tc.name = "CreateChart")
    (h1 : step env (Input.editSubmit p) s = some s1)
    (h2 : step env (Input.propose newCalls) s1 = some s2)
    (h3 : step env Input.approve s2 = some s3) :
    s3.agent_messages[s1.agent_messages.length]? = some (Turn.toolCalls newCalls)
    ∧ s3.agent_messages[s1.agent_messages.length + 1]? =
        some (Turn.toolResult (known_result env tc0) tc0.id)
    ∧ (s3.agent_messages[s1.agent_messages.length - 1]?).bind Turn.text? =
        some (edit_msg p) := by
  have hne : newCalls.isEmpty = false := by
    cases newCalls with
    | nil => cases hnew
    | cons a l => rfl
  obtain ⟨last, hlast⟩ : ∃ a, oldCalls.getLast? = some a := by
    cases h : oldCalls.getLast? with
    | none => exact absurd (List.getLast?_eq_none_iff.mp h) hold
    | some a => exact ⟨a, rfl⟩
  simp only [step, hph, hp, ne_eq, not_false_iff, and_self, if_true, hpend,
    edit_pending_tools, Option.isSome_some, if_pos, Option.some.injEq] at h1
  subst h1
  simp only [step, run_step_acting, hne, if_true, Bool.false_eq_true, if_false,
    Option.some.injEq] at h2
  subst h2
  simp only [step, if_true, execute_pending_tools,
    run_calls_known env _ newCalls none hknown, Option.map_some',
    Option.some.injEq] at h3
  subst h3
  simp only []
  refine ⟨?_, ?_, ?_⟩
  · rw [List.getElem?_append_right (le_refl _)]
    simp
  · rw [List.getElem?_append_right (Nat.le_succ _)]
    simp [← List.head?_eq_getElem?, hnew]
  · have hmap : (oldCalls.map fun tc => Turn.toolResult (edit_msg p) tc.id) ≠ [] := by
      simpa using hold
    have hge : 1 ≤ (s.agent_messages ++ Turn.toolCalls oldCalls ::
        oldCalls.map fun tc => Turn.toolResult (edit_msg p) tc.id).length := by
      simp [Nat.succ_le, Nat.lt_of_lt_of_le (Nat.zero_lt_succ _) (Nat.le_add_left _ _)]
    rw [List.getElem?_append_left (Nat.sub_lt (Nat.lt_of_lt_of_le Nat.zero_lt_one hge)
      Nat.zero_lt_one),
      ← List.getLast?_eq_getElem?, List.append_cons,
      List.getLast?_append_of_ne_nil _ hmap, List.getLast?_map, hlast]
    rfl

/-! Invariant machinery. -/

theorem filterMap_eq_nil_of_none {α β : Type} {f : α → Option β} {l : List α}
    (h : ∀ a ∈ l, f a = none) : l.filterMap f = [] :=
  List.filterMap_eq_nil_iff.mpr h

/-- Chart-list preservation along one tick: every transition keeps
`agent_chart_specs` equal to the chart specs derived from the event log. -/
theorem chart_inv_step (env : ToolEnv) (i : Input) (s s' : State)
    (h : step env i s = some s')
    (hs : s.agent_chart_specs = s.agent_events.filterMap (chart_of env)) :
    s'.agent_chart_specs = s'.agent_events.filterMap (chart_of env) := by
  cases i with
  | newQuestion q c =>
    simp only [step] at h
    split at h <;> obtain rfl := Option.some.inj h
    · exact hs
    · rfl
  | think r =>
    simp only [step] at h
    split at h <;> obtain rfl := Option.some.inj h
    · by_cases hu : r.use_tool <;>
        simp [run_step_thinking, hu, List.filterMap_append, List.filterMap_cons,
          chart_of, hs]
    · exact hs
  | propose calls =>
    simp only [step] at h
    split at h <;> obtain rfl := Option.some.inj h
    · unfold run_step_acting
      split <;> exact hs
    · exact hs
  | approve =>
    simp only [step] at h
    split at h
    · unfold execute_pending_tools at h
      cases hp : s.agent_pending_message with
      | none => rw [hp] at h; cases h
      | some calls =>
        rw [hp] at h
        rw [Option.map_eq_some'] at h
        obtain ⟨d, hd, rfl⟩ := h
        show s.agent_chart_specs ++ d.specs =
          (s.agent_events ++ d.events).filterMap (chart_of env)
        rw [hs, run_calls_specs env s.agent_messages.length calls none d hd,
          List.filterMap_append]
    · obtain rfl := Option.some.inj h; exact hs
  | chooseEdit =>
    simp only [step] at h
    split at h <;> obtain rfl := Option.some.inj h <;> exact hs
  | chooseReject =>
    simp only [step] at h
    split at h <;> obtain rfl := Option.some.inj h <;> exact hs
  | editCancel =>
    simp only [step] at h
    split at h
    · split at h <;> obtain rfl := Option.some.inj h <;> exact hs
    · obtain rfl := Option.some.inj h; exact hs
  | editSubmit p =>
    simp only [step] at h
    split at h
    · split at h
      · unfold edit_pending_tools at h
        cases hp : s.agent_pending_message with
        | none => rw [hp] at h; cases h
        | some calls =>
          rw [hp] at h
          obtain rfl := Option.some.inj h
          show s.agent_chart_specs =
            (s.agent_events ++ [Event.edited p]).filterMap (chart_of env)
          rw [hs, List.filterMap_append]
          simp [chart_of]
      · split at h
        · unfold rewind_and_edit at h
          split at h
          · cases h
          · split at h
            · cases h
            · obtain rfl := Option.some.inj h
              simp [List.filterMap_append, List.filterMap_cons, chart_of]
        · obtain rfl := Option.some.inj h; exact hs
    · obtain rfl := Option.some.inj h; exact hs
  | feedbackSubmit f =>
    simp only [step] at h
    split at h
    · unfold reject_pending_tools at h
      cases hp : s.agent_pending_message with
      | none => rw [hp] at h; cases h
      | some calls =>
        rw [hp] at h
        obtain rfl := Option.some.inj h
        have hn : (calls.map fun tc => Event.rejected tc.name f).filterMap (chart_of env) = [] :=
          filterMap_eq_nil_of_none (by
            rintro a ha
            obtain ⟨tc, -, rfl⟩ := List.mem_map.mp ha
            rfl)
        show s.agent_chart_specs =
          (s.agent_events ++ calls.map fun tc => Event.rejected tc.name f).filterMap
            (chart_of env)
        rw [List.filterMap_append, hn, List.append_nil]
        exact hs
    · obtain rfl := Option.some.inj h; exact hs
  | selectRewind j =>
    simp only [step] at h
    split at h <;> obtain rfl := Option.some.inj h <;> exact hs

/-- C4: in every reachable state the chart-spec list equals exactly the list
of validated specs of the chart events currently in the event log (ordered,
one entry per chart event whose validation succeeded) — no leftover entries
from truncated chart events and no missing ones for surviving events. -/
theorem c4_chart_specs_derived (env : ToolEnv) (s : State) (h : Reachable env s) :
    s.agent_chart_specs = s.agent_events.filterMap (chart_of env) := by
  induction h with
  | init => rfl
  | step i hr hstep ih => exact chart_inv_step env i _ _ hstep ih

/-- The state reached by asking a question, thinking, proposing one chart
call and approving it under `env0` (validation succeeds). -/
def c4_final : State where
  agent_phase := Phase.thinking
  agent_events := [Event.thought "t", Event.chart "CreateChart" "spec1" "valid" 3]
  agent_messages := [Turn.system (system_content false), Turn.user "q",
    Turn.assistant "t", Turn.toolCalls [tcChart], Turn.toolResult "valid" "call_3"]
  agent_chart_specs := ["spec1"]
  agent_pending_message := none
  agent_rewrite_event_index := none

/-- Intermediate states on the way to `c4_final`. -/
def c4_s1 : State where
  agent_phase := Phase.thinking
  agent_events := []
  agent_messages := [Turn.system (system_content false), Turn.user "q"]
  agent_chart_specs := []
  agent_pending_message := none
  agent_rewrite_event_index := none

def c4_s2 : State :=
  { c4_s1 with
    agent_messages := c4_s1.agent_messages ++ [Turn.assistant "t"]
    agent_events := [Event.thought "t"]
    agent_phase := Phase.acting }

def c4_s3 : State :=
  { c4_s2 with
    agent_pending_message := some [tcChart]
    agent_phase := Phase.awaiting_approval }

/-- Witness for C4 at the reachable state `c4_final`, which holds one
successfully validated chart event. -/
theorem c4_chart_specs_derived_witness :
    c4_final.agent_chart_specs = c4_final.agent_events.filterMap (chart_of env0) := by
  have h1 : Reachable env0 c4_s1 :=
    Reachable.step (Input.newQuestion "q" false) Reachable.init (by decide)
  have h2 : Reachable env0 c4_s2 :=
    Reachable.step (Input.think { reason := "t", use_tool := true, answer := none })
      h1 (by decide)
  have h3 : Reachable env0 c4_s3 :=
    Reachable.step (Input.propose [tcChart]) h2 (by decide)
  exact c4_chart_specs_derived env0 c4_final
    (Reachable.step Input.approve h3 (by decide))

/-- The rewind points of an event list, in event-log order. -/
def rps (l : List Event) : List Nat := l.filterMap Event.rewindPoint?

theorem rps_append_of_none {l evs : List Event}
    (hn : ∀ e ∈ evs, e.rewindPoint? = none) : rps (l ++ evs) = rps l := by
  rw [rps, rps, List.filterMap_append, filterMap_eq_nil_of_none hn, List.append_nil]

theorem pairwise_le_of_all_eq {l : List Nat} {v : Nat} (h : ∀ x ∈ l, x = v) :
    l.Pairwise (· ≤ ·) := by
  induction l with
  | nil => exact List.Pairwise.nil
  | cons a t ih =>
    refine List.Pairwise.cons ?_ (ih fun x hx => h x (List.mem_cons_of_mem _ hx))
    intro b hb
    rw [h a (List.mem_cons_self a t), h b (List.mem_cons_of_mem _ hb)]

/-- Rewind-point invariant preservation along one tick: the rewind points in
event-log order stay non-decreasing and bounded by the transcript length. -/
theorem rp_inv_step (env : ToolEnv) (i : Input) (s s' : State)
    (h : step env i s = some s')
    (hpw : (rps s.agent_events).Pairwise (· ≤ ·))
    (hb : ∀ x ∈ rps s.agent_events, x ≤ s.agent_messages.length) :
    (rps s'.agent_events).Pairwise (· ≤ ·)
    ∧ ∀ x ∈ rps s'.agent_events, x ≤ s'.agent_messages.length := by
  cases i with
  | newQuestion q c =>
    simp only [step] at h
    split at h <;> obtain rfl := Option.some.inj h
    · exact ⟨hpw, hb⟩
    · constructor <;> simp [rps, restart_agent]
  | think r =>
    simp only [step] at h
    split at h <;> obtain rfl := Option.some.inj h
    · have hev : rps ((run_step_thinking r s).agent_events) = rps s.agent_events := by
        by_cases hu : r.use_tool <;>
          simp [run_step_thinking, hu, rps, List.filterMap_append,
            List.filterMap_cons, Event.rewindPoint?]
      have hm : (run_step_thinking r s).agent_messages =
          s.agent_messages ++ [Turn.assistant r.reason] := by
        by_cases hu : r.use_tool <;> simp [run_step_thinking, hu]
      refine ⟨by rw [hev]; exact hpw, ?_⟩
      intro x hx
      rw [hev] at hx
      rw [hm, List.length_append]
      exact le_trans (hb x hx) (Nat.le_add_right _ _)
    · exact ⟨hpw, hb⟩
  | propose calls =>
    simp only [step] at h
    split at h <;> obtain rfl := Option.some.inj h
    · unfold run_step_acting
      split <;> exact ⟨hpw, hb⟩
    · exact ⟨hpw, hb⟩
  | approve =>
    simp only [step] at h
    split at h
    · unfold execute_pending_tools at h
      cases hp : s.agent_pending_message with
      | none => rw [hp] at h; cases h
      | some calls =>
        rw [hp] at h
        rw [Option.map_eq_some'] at h
        obtain ⟨d, hd, rfl⟩ := h
        have hall : ∀ x ∈ rps d.events, x = s.agent_messages.length := by
          intro x hx
          obtain ⟨ev, hev, hevx⟩ := List.mem_filterMap.mp hx
          exact Option.some.inj
            (hevx.symm.trans (run_calls_rp env s.agent_messages.length calls none d hd ev hev))
        have hsplit : rps (s.agent_events ++ d.events) =
            rps s.agent_events ++ rps d.events := by
          rw [rps, rps, rps, List.filterMap_append]
        constructor
        · show (rps (s.agent_events ++ d.events)).Pairwise (· ≤ ·)
          rw [hsplit]
          refine List.pairwise_append.mpr ⟨hpw, pairwise_le_of_all_eq hall, ?_⟩
          intro a ha b hbm
          rw [hall b hbm]
          exact hb a ha
        · intro x hx
          show x ≤ (s.agent_messages ++ Turn.toolCalls calls :: d.turns).length
          rw [hsplit] at hx
          rw [List.length_append, List.length_cons]
          rcases List.mem_append.mp hx with hL | hR
          · exact le_trans (hb x hL) (Nat.le_add_right _ _)
          · rw [hall x hR]
            exact Nat.le_add_right _ _
    · obtain rfl := Option.some.inj h; exact ⟨hpw, hb⟩
  | chooseEdit =>
    simp only [step] at h
    split at h <;> obtain rfl := Option.some.inj h <;> exact ⟨hpw, hb⟩
  | chooseReject =>
    simp only [step] at h
    split at h <;> obtain rfl := Option.some.inj h <;> exact ⟨hpw, hb⟩
  | editCancel =>
    simp only [step] at h
    split at h
    · split at h <;> obtain rfl := Option.some.inj h <;> exact ⟨hpw, hb⟩
    · obtain rfl := Option.some.inj h; exact ⟨hpw, hb⟩
  | editSubmit p =>
    simp only [step] at h
    split at h
    · split at h
      · unfold edit_pending_tools at h
        cases hp : s.agent_pending_message with
        | none => rw [hp] at h; cases h
        | some calls =>
          rw [hp] at h
          obtain rfl := Option.some.inj h
          have hev : rps (s.agent_events ++ [Event.edited p]) = rps s.agent_events :=
            rps_append_of_none (by rintro e he; rw [List.mem_singleton.mp he]; rfl)
          constructor
          · show (rps (s.agent_events ++ [Event.edited p])).Pairwise (· ≤ ·)
            rw [hev]; exact hpw
          · intro x hx
            show x ≤ (s.agent_messages ++ Turn.toolCalls calls ::
              calls.map fun tc => Turn.toolResult (edit_msg p) tc.id).length
            rw [show rps ({ s with
                agent_messages := s.agent_messages ++ Turn.toolCalls calls ::
                  calls.map fun tc => Turn.toolResult (edit_msg p) tc.id
                agent_events := s.agent_events ++ [Event.edited p]
                agent_pending_message := none
                agent_phase := Phase.acting } : State).agent_events = rps s.agent_events
              from hev] at hx
            rw [List.length_append, List.length_cons]
            exact le_trans (hb x hx) (Nat.le_add_right _ _)
      · split at h
        · rename_i idx hrw
          unfold rewind_and_edit at h
          split at h
          · cases h
          · rename_i e he
            split at h
            · cases h
            · rename_i rp hrp
              obtain rfl := Option.some.inj h
              obtain ⟨hlt, hget⟩ := List.getElem?_eq_some_iff.mp he
              have hsplit : s.agent_events =
                  s.agent_events.take idx ++ e :: s.agent_events.drop (idx + 1) := by
                conv_lhs => rw [← List.take_append_drop idx s.agent_events]
                rw [List.drop_eq_getElem_cons hlt, hget]
              have hdecomp : rps s.agent_events =
                  rps (s.agent_events.take idx) ++ rp :: rps (s.agent_events.drop (idx + 1)) := by
                conv_lhs => rw [hsplit]
                rw [rps, rps, rps, List.filterMap_append, List.filterMap_cons, hrp]
              rw [hdecomp] at hpw
              obtain ⟨pw1, _, hcross⟩ := List.pairwise_append.mp hpw
              have hle_rp : ∀ x ∈ rps (s.agent_events.take idx), x ≤ rp :=
                fun x hx => hcross x hx rp (List.mem_cons_self _ _)
              have hrp_le : rp ≤ s.agent_messages.length := by
                refine hb rp ?_
                rw [hdecomp]
                exact List.mem_append_right _ (List.mem_cons_self _ _)
              have hev : rps (s.agent_events.take idx ++ [Event.edited p]) =
                  rps (s.agent_events.take idx) :=
                rps_append_of_none (by rintro e1 he1; rw [List.mem_singleton.mp he1]; rfl)
              constructor
              · show (rps (s.agent_events.take idx ++ [Event.edited p])).Pairwise (· ≤ ·)
                rw [hev]
                exact pw1
              · intro x hx
                show x ≤ (s.agent_messages.take rp ++ [Turn.user (rewind_user_msg p)]).length
                rw [show rps ({ s with
                    agent_messages := s.agent_messages.take rp ++ [Turn.user (rewind_user_msg p)]
                    agent_events := s.agent_events.take idx ++ [Event.edited p]
                    agent_chart_specs := (s.agent_events.take idx).filterMap (chart_of env)
                    agent_rewrite_event_index := none
                    agent_phase := Phase.acting } : State).agent_events =
                    rps (s.agent_events.take idx) from hev] at hx
                rw [List.length_append, List.length_take, Nat.min_eq_left hrp_le]
                exact le_trans (hle_rp x hx) (Nat.le_add_right _ _)
        · obtain rfl := Option.some.inj h; exact ⟨hpw, hb⟩
    · obtain rfl := Option.some.inj h; exact ⟨hpw, hb⟩
  | feedbackSubmit f =>
    simp only [step] at h
    split at h
    · unfold reject_pending_tools at h
      cases hp : s.agent_pending_message with
      | none => rw [hp] at h; cases h
      | some calls =>
        rw [hp] at h
        obtain rfl := Option.some.inj h
        have hev : rps (s.agent_events ++ calls.map fun tc => Event.rejected tc.name f) =
            rps s.agent_events :=
          rps_append_of_none (by
            rintro e he
            obtain ⟨tc, -, rfl⟩ := List.mem_map.mp he
            rfl)
        constructor
        · show (rps (s.agent_events ++
            calls.map fun tc => Event.rejected tc.name f)).Pairwise (· ≤ ·)
          rw [hev]; exact hpw
        · intro x hx
          show x ≤ (s.agent_messages ++ Turn.toolCalls calls ::
            calls.map fun tc => Turn.toolResult (rejection_msg f) tc.id).length
          rw [show rps ({ s with
              agent_messages := s.agent_messages ++ Turn.toolCalls calls ::
                calls.map fun tc => Turn.toolResult (rejection_msg f) tc.id
              agent_events := s.agent_events ++ calls.map fun tc => Event.rejected tc.name f
              agent_pending_message := none
              agent_phase := Phase.thinking } : State).agent_events = rps s.agent_events
            from hev] at hx
          rw [List.length_append, List.length_cons]
          exact le_trans (hb x hx) (Nat.le_add_right _ _)
    · obtain rfl := Option.some.inj h; exact ⟨hpw, hb⟩
  | selectRewind j =>
    simp only [step] at h
    split at h <;> obtain rfl := Option.some.inj h <;> exact ⟨hpw, hb⟩

/-- C8 counterexample: the rewind points of the action/chart events are not
strictly increasing in every reachable state.  A single approved batch of two
calls records the same `rewind_point` (the transcript length before the shared
proposal turn) on both of its action events: the state below, reached by
asking a question, thinking, proposing a two-call batch and approving it, has
rewind points `[3, 3]`. -/
def c8_s3 : State :=
  { c4_s2 with
    agent_pending_message := some [tcQuery, tcQuery2]
    agent_phase := Phase.awaiting_approval }

def c8_final : State :=
  { c8_s3 with
    agent_messages := c4_s2.agent_messages ++
      [Turn.toolCalls [tcQuery, tcQuery2], Turn.toolResult "ok" "call_1",
        Turn.toolResult "ok" "call_2"]
    agent_events := [Event.thought "t", Event.action "QueryMovieDB" "x" "ok" 3,
      Event.action "QueryMovieDB" "y" "ok" 3]
    agent_pending_message := none
    agent_phase := Phase.thinking }

theorem c8_counterexample :
    Reachable env0 c8_final ∧ ¬ (rps c8_final.agent_events).Pairwise (· < ·) := by
  constructor
  · have h1 : Reachable env0 c4_s1 :=
      Reachable.step (Input.newQuestion "q" false) Reachable.init (by decide)
    have h2 : Reachable env0 c4_s2 :=
      Reachable.step (Input.think { reason := "t", use_tool := true, answer := none })
        h1 (by decide)
    have h3 : Reachable env0 c8_s3 :=
      Reachable.step (Input.propose [tcQuery, tcQuery2]) h2 (by decide)
    exact Reachable.step Input.approve h3 (by decide)
  · decide

/-- C8 (amended): in every reachable state the rewind points of the
action/chart events are non-decreasing in event-log order — strictly
increasing across batches, while the events of one approved multi-call batch
share a rewind point — and each is at most the current transcript length. -/
theorem c8_rewind_points_monotone (env : ToolEnv) (s : State) (h : Reachable env s) :
    (rps s.agent_events).Pairwise (· ≤ ·)
    ∧ ∀ x ∈ rps s.agent_events, x ≤ s.agent_messages.length := by
  induction h with
  | init => exact ⟨List.Pairwise.nil, by simp [rps, init]⟩
  | step i hr hstep ih => exact rp_inv_step env i _ _ hstep ih.1 ih.2

/-- Witness for amended C8 at the reachable state `c8_final` (rewind points
`[3, 3]`, transcript length 6). -/
theorem c8_rewind_points_monotone_witness :
    (rps c8_final.agent_events).Pairwise (· ≤ ·)
    ∧ ∀ x ∈ rps c8_final.agent_events, x ≤ c8_final.agent_messages.length := by
  have h1 : Reachable env0 c4_s1 :=
    Reachable.step (Input.newQuestion "q" false) Reachable.init (by decide)
  have h2 : Reachable env0 c4_s2 :=
    Reachable.step (Input.think { reason := "t", use_tool := true, answer := none })
      h1 (by decide)
  have h3 : Reachable env0 c8_s3 :=
    Reachable.step (Input.propose [tcQuery, tcQuery2]) h2 (by decide)
  exact c8_rewind_points_monotone env0 c8_final
    (Reachable.step Input.approve h3 (by decide))

/-- C1: at most one proposal is pending in any reachable state (the single
`agent_pending_message` slot); the slot is filled only by the acting step
consuming a non-empty model proposal; and each transition that consumes the
pending proposal — approve/execute, submitting an edit, submitting a
rejection — leaves it cleared when it leaves the phase. -/
theorem c1_single_pending_discipline (env : ToolEnv) :
    (∀ s, Reachable env s → (pending_proposals s).length ≤ 1)
    ∧ (∀ i s s', step env i s = some s' →
        s.agent_pending_message = none → s'.agent_pending_message ≠ none →
        ∃ calls, i = Input.propose calls ∧ s.agent_phase = Phase.acting)
    ∧ (∀ s s', s.agent_phase = Phase.awaiting_approval →
        step env Input.approve s = some s' → s'.agent_pending_message = none)
    ∧ (∀ p s s', s.agent_phase = Phase.awaiting_edit → p ≠ "" →
        step env (Input.editSubmit p) s = some s' → s'.agent_pending_message = none)
    ∧ (∀ f s s', s.agent_phase = Phase.awaiting_feedback →
        step env (Input.feedbackSubmit f) s = some s' → s'.agent_pending_message = none) := by
  refine ⟨?_, ?_, ?_, ?_, ?_⟩
  · intro s _
    cases hp : s.agent_pending_message <;> simp [pending_proposals, hp]
  · intro i s s' h hnone hsome
    cases i with
    | newQuestion q c =>
      simp only [step] at h
      split at h <;> obtain rfl := Option.some.inj h
      · exact absurd hnone hsome
      · exact absurd rfl hsome
    | think r =>
      simp only [step] at h
      split at h <;> obtain rfl := Option.some.inj h
      · have hpm : (run_step_thinking r s).agent_pending_message =
            s.agent_pending_message := by
          by_cases hu : r.use_tool <;> simp [run_step_thinking, hu]
        exact absurd (hpm.trans hnone) hsome
      · exact absurd hnone hsome
    | propose calls =>
      simp only [step] at h
      split at h
      · rename_i hph
        obtain rfl := Option.some.inj h
        by_cases hem : calls.isEmpty
        · refine absurd ?_ hsome
          show (run_step_acting calls s).agent_pending_message = none
          simp [run_step_acting, hem, hnone]
        · exact ⟨calls, rfl, hph⟩
      · obtain rfl := Option.some.inj h
        exact absurd hnone hsome
    | approve =>
      simp only [step] at h
      split at h
      · unfold execute_pending_tools at h
        rw [hnone] at h
        cases h
      · obtain rfl := Option.some.inj h
        exact absurd hnone hsome
    | chooseEdit =>
      simp only [step] at h
      split at h <;> obtain rfl := Option.some.inj h <;> exact absurd hnone hsome
    | chooseReject =>
      simp only [step] at h
      split at h <;> obtain rfl := Option.some.inj h <;> exact absurd hnone hsome
    | editCancel =>
      simp only [step] at h
      split at h
      · split at h <;> obtain rfl := Option.some.inj h <;> exact absurd hnone hsome
      · obtain rfl := Option.some.inj h
        exact absurd hnone hsome
    | editSubmit p =>
      simp only [step] at h
      split at h
      · split at h
        · rename_i hpm
          rw [hnone] at hpm
          simp at hpm
        · split at h
          · unfold rewind_and_edit at h
            split at h
            · cases h
            · split at h
              · cases h
              · obtain rfl := Option.some.inj h
                exact absurd hnone hsome
          · obtain rfl := Option.some.inj h
            exact absurd hnone hsome
      · obtain rfl := Option.some.inj h
        exact absurd hnone hsome
    | feedbackSubmit f =>
      simp only [step] at h
      split at h
      · unfold reject_pending_tools at h
        rw [hnone] at h
        cases h
      · obtain rfl := Option.some.inj h
        exact absurd hnone hsome
    | selectRewind j =>
      simp only [step] at h
      split at h <;> obtain rfl := Option.some.inj h <;> exact absurd hnone hsome
  · intro s s' hph h
    simp only [step] at h
    rw [if_pos hph] at h
    unfold execute_pending_tools at h
    cases hq : s.agent_pending_message with
    | none => rw [hq] at h; cases h
    | some calls =>
      rw [hq] at h
      rw [Option.map_eq_some'] at h
      obtain ⟨d, hd, rfl⟩ := h
      rfl
  · intro p s s' hph hp h
    simp only [step] at h
    rw [if_pos ⟨hph, hp⟩] at h
    by_cases hpm : s.agent_pending_message.isSome = true
    · rw [if_pos hpm] at h
      unfold edit_pending_tools at h
      cases hq : s.agent_pending_message with
      | none => rw [hq] at h; cases h
      | some calls =>
        rw [hq] at h
        obtain rfl := Option.some.inj h
        rfl
    · rw [if_neg hpm] at h
      have hq : s.agent_pending_message = none := Option.not_isSome_iff_eq_none.mp hpm
      split at h
      · unfold rewind_and_edit at h
        split at h
        · cases h
        · split at h
          · cases h
          · obtain rfl := Option.some.inj h
            exact hq
      · obtain rfl := Option.some.inj h
        exact hq
  · intro f s s' hph h
    simp only [step] at h
    rw [if_pos hph] at h
    unfold reject_pending_tools at h
    cases hq : s.agent_pending_message with
    | none => rw [hq] at h; cases h
    | some calls =>
      rw [hq] at h
      obtain rfl := Option.some.inj h
      rfl

/-- Fixtures for the C1 witness: a one-call proposal taken through the
propose, approve, edit and reject transitions. -/
def c1_sApproval : State :=
  { sActing with
    agent_pending_message := some [tcQuery]
    agent_phase := Phase.awaiting_approval }

def c1_sExec : State :=
  { c1_sApproval with
    agent_messages := base_msgs ++
      [Turn.toolCalls [tcQuery], Turn.toolResult "ok" "call_1"]
    agent_events := [Event.action "QueryMovieDB" "x" "ok" 2]
    agent_pending_message := none
    agent_phase := Phase.thinking }

def c1_sEdit2 : State := { c1_sApproval with agent_phase := Phase.awaiting_edit }

def c1_sEdited : State :=
  { c1_sEdit2 with
    agent_messages := base_msgs ++
      [Turn.toolCalls [tcQuery], Turn.toolResult (edit_msg "tweak") "call_1"]
    agent_events := [Event.edited "tweak"]
    agent_pending_message := none
    agent_phase := Phase.acting }

def c1_sFeedback2 : State :=
  { c1_sApproval with agent_phase := Phase.awaiting_feedback }

def c1_sRejected : State :=
  { c1_sFeedback2 with
    agent_messages := base_msgs ++
      [Turn.toolCalls [tcQuery], Turn.toolResult (rejection_msg "slow") "call_1"]
    agent_events := [Event.rejected "QueryMovieDB" "slow"]
    agent_pending_message := none
    agent_phase := Phase.thinking }

/-- Witness for C1: each conjunct instantiated at a concrete transition. -/
theorem c1_single_pending_discipline_witness :
    (pending_proposals init).length ≤ 1
    ∧ (∃ calls, Input.propose [tcQuery] = Input.propose calls
        ∧ sActing.agent_phase = Phase.acting)
    ∧ c1_sExec.agent_pending_message = none
    ∧ c1_sEdited.agent_pending_message = none
    ∧ c1_sRejected.agent_pending_message = none :=
  ⟨(c1_single_pending_discipline env0).1 init Reachable.init,
   (c1_single_pending_discipline env0).2.1 (Input.propose [tcQuery]) sActing c1_sApproval
     (by decide) rfl (by decide),
   (c1_single_pending_discipline env0).2.2.1 c1_sApproval c1_sExec rfl (by decide),
   (c1_single_pending_discipline env0).2.2.2.1 "tweak" c1_sEdit2 c1_sEdited rfl
     (by decide) (by decide),
   (c1_single_pending_discipline env0).2.2.2.2 "slow" c1_sFeedback2 c1_sRejected rfl
     (by decide)⟩

/-- Fixtures for the C9 witness: the awaiting_edit state produced by the
`c9_inputs` scenario just before the edit is submitted, and the three states
after the edit, the re-proposal and the approval. -/
def c9_sEdit : State where
  agent_phase := Phase.awaiting_edit
  agent_events := [Event.thought "t"]
  agent_messages := [Turn.system (system_content false), Turn.user "avg",
    Turn.assistant "t"]
  agent_chart_specs := []
  agent_pending_message := some [tcQuery]
  agent_rewrite_event_index := none

def c9_s1 : State :=
  { c9_sEdit with
    agent_messages := c9_sEdit.agent_messages ++
      [Turn.toolCalls [tcQuery], Turn.toolResult (edit_msg c9_prompt) "call_1"]
    agent_events := [Event.thought "t", Event.edited c9_prompt]
    agent_pending_message := none
    agent_phase := Phase.acting }

def c9_s2 : State :=
  { c9_s1 with
    agent_pending_message := some [tcQuery2]
    agent_phase := Phase.awaiting_approval }

def c9_s3 : State :=
  { c9_s2 with
    agent_messages := c9_s1.agent_messages ++
      [Turn.toolCalls [tcQuery2], Turn.toolResult "ok" "call_2"]
    agent_events := c9_s1.agent_events ++ [Event.action "QueryMovieDB" "y" "ok" 5]
    agent_pending_message := none
    agent_phase := Phase.thinking }

/-- Witness for amended C9 at the concrete edit/re-propose/approve scenario. -/
theorem c9_edit_instruction_in_context_witness :
    c9_s3.agent_messages[c9_s1.agent_messages.length]? = some (Turn.toolCalls [tcQuery2])
    ∧ c9_s3.agent_messages[c9_s1.agent_messages.length + 1]? =
        some (Turn.toolResult (known_result env0 tcQuery2) tcQuery2.id)
    ∧ (c9_s3.agent_messages[c9_s1.agent_messages.length - 1]?).bind Turn.text? =
        some (edit_msg c9_prompt) :=
  c9_edit_instruction_in_context env0 c9_sEdit c9_s1 c9_s2 c9_s3 [tcQuery] [tcQuery2]
    c9_prompt tcQuery2 rfl rfl (by decide) (by decide) rfl (by decide)
    (by decide) (by decide) (by decide)

end AgentPanel
